import Mathlib

/-!
Shallow embedding of the shift-change web application (src/app.py) and proofs
about its behaviour.

The application is a single-file WSGI program: it parses "HH:MM" time strings
with `datetime.strptime`, computes a duration with midnight rollover, stores
shift-change rows in an SQLite table, filters them with `LIKE`/`=` and orders
them with `ORDER BY date DESC, start_time ASC`, and renders results by literal
placeholder substitution.  Each definition below embeds one piece of that
program; machine floats are modelled by exact rationals (every value the
program stores is a multiple of 1/100 far below any double rounding error, and
`round(x, 2)` can only differ from exact rational rounding at ties, which are
impossible for multiples of one minute: `m*5/3 = k + 1/2` has no integer
solutions).
-/

/-- A row of the `shift_changes` table (src/app.py lines 51-60).  `total_hours`
is `REAL` in the schema; it is modelled as an exact rational. -/
structure ShiftRecord where
  id : Nat
  employee_name : String
  date : String
  start_time : String
  end_time : String
  rotation : String
  total_hours : ℚ
  comment : String
deriving DecidableEq

/-- ASCII digit test: models the `\d`-positions accepted by `strptime`
(restricted to ASCII digits). -/
def isDig (c : Char) : Bool := 48 ≤ c.toNat && c.toNat ≤ 57

/-- Numeric value of an ASCII digit. -/
def digitVal (c : Char) : Nat := c.toNat - 48

/-- Embeds `datetime.strptime(s, "%H:%M")` (src/app.py lines 69-71), returning
hour and minute.  `%H` accepts one or two digits with value 0-23, `%M` one or
two digits with value 0-59, the whole string must be consumed; any other input
raises `ValueError`, modelled as `none`. -/
def parseTimeHM (s : String) : Option (Nat × Nat) :=
  match s.data with
  | [a, b, ':', c, d] =>
    if isDig a ∧ isDig b ∧ isDig c ∧ isDig d ∧
        10 * digitVal a + digitVal b ≤ 23 ∧ 10 * digitVal c + digitVal d ≤ 59 then
      some (10 * digitVal a + digitVal b, 10 * digitVal c + digitVal d)
    else none
  | [a, b, ':', c] =>
    if isDig a ∧ isDig b ∧ isDig c ∧ 10 * digitVal a + digitVal b ≤ 23 then
      some (10 * digitVal a + digitVal b, digitVal c)
    else none
  | [a, ':', c, d] =>
    if isDig a ∧ isDig c ∧ isDig d ∧ 10 * digitVal c + digitVal d ≤ 59 then
      some (digitVal a, 10 * digitVal c + digitVal d)
    else none
  | [a, ':', c] =>
    if isDig a ∧ isDig c then some (digitVal a, digitVal c) else none
  | _ => none

/-- Embeds Python `round(x, 2)` on the exact rational value (round to nearest
multiple of 1/100; ties cannot arise for the values this program rounds, see
the file comment). -/
def round2 (q : ℚ) : ℚ := ((q * 100 + 1/2).floor : ℚ) / 100

/-- Embeds `compute_total_hours` (src/app.py lines 67-76): parse both strings
with `%H:%M`, advance the end time by one day when `end <= start`, and return
the difference in seconds divided by 3600, rounded to 2 decimal places.
A `strptime` failure (Python exception) is modelled as `none`. -/
def compute_total_hours (start_time end_time : String) : Option ℚ :=
  match parseTimeHM start_time, parseTimeHM end_time with
  | some (sh, sm), some (eh, em) =>
    let s : ℤ := sh * 60 + sm
    let e : ℤ := eh * 60 + em
    let e2 : ℤ := if e ≤ s then e + 1440 else e
    some (round2 ((((e2 - s) * 60 : ℤ) : ℚ) / 3600))
  | _, _ => none

/-- Embeds `init_db` (src/app.py lines 45-64): `CREATE TABLE IF NOT EXISTS`.
The database state is `none` when the table is absent and `some rows` when it
exists with the given rows. -/
def init_db : Option (List ShiftRecord) → Option (List ShiftRecord)
  | none => some []
  | some rows => some rows

/-- ASCII whitespace as stripped by Python `str.strip()` (space, tab, newline,
vertical tab, form feed, carriage return; the Unicode extras are irrelevant to
the claims and omitted). -/
def pyIsSpace (c : Char) : Bool :=
  c.toNat = 32 || c.toNat = 9 || c.toNat = 10 || c.toNat = 11 || c.toNat = 12 || c.toNat = 13

/-- Embeds Python `str.strip()`: drop whitespace from both ends. -/
def pyStrip (s : String) : String :=
  ⟨((s.data.dropWhile pyIsSpace).reverse.dropWhile pyIsSpace).reverse⟩

/-- SQLite's default `LIKE` folds ASCII `A`-`Z` to lower case and nothing
else. -/
def lowerAscii (c : Char) : Char :=
  if 65 ≤ c.toNat ∧ c.toNat ≤ 90 then Char.ofNat (c.toNat + 32) else c

/-- Embeds SQLite's default `LIKE` operator, `likeMatch pattern text`: `%`
matches any (possibly empty) character sequence, `_` matches exactly one
character, every other pattern character matches ASCII-case-insensitively. -/
def likeMatch : List Char → List Char → Bool
  | [], [] => true
  | [], _ :: _ => false
  | p :: ps, [] => p = '%' && likeMatch ps []
  | p :: ps, c :: s2 =>
    if p = '%' then likeMatch ps (c :: s2) || likeMatch (p :: ps) s2
    else if p = '_' then likeMatch ps s2
    else lowerAscii p == lowerAscii c && likeMatch ps s2
termination_by p s => (p.length, s.length)

/-- Embeds the filter `employee_name LIKE ?` with parameter `f"%{filter}%"`
(src/app.py lines 177-179). -/
def likeContains (f name : String) : Bool :=
  likeMatch ('%' :: (f.data ++ ['%'])) name.data

/-- The `WHERE` clause built at src/app.py lines 175-182: employee name by
`LIKE` containment when the filter is non-empty, date by exact equality when
the filter is non-empty, everything matches when both are empty. -/
def rowMatches (empF dateF : String) (r : ShiftRecord) : Bool :=
  (empF == "" || likeContains empF r.employee_name) &&
    (dateF == "" || r.date == dateF)

/-- Code-point comparison of two characters, as a Bool. -/
def charLtb (a b : Char) : Bool := decide (a.toNat < b.toNat)

/-- Lexicographic comparison of character lists: embeds SQLite's `BINARY`
collation on `TEXT` values (UTF-8 byte order coincides with code-point
order). -/
def charListLtb : List Char → List Char → Bool
  | [], [] => false
  | [], _ :: _ => true
  | _ :: _, [] => false
  | a :: as, b :: bs => charLtb a b || (a == b && charListLtb as bs)

/-- The comparison of `ORDER BY date DESC, start_time ASC` (src/app.py line
183): `a` may come before `b` when `a.date` is greater, or the dates are equal
and `a.start_time` is not greater. -/
def rowOrd (a b : ShiftRecord) : Prop :=
  charListLtb b.date.data a.date.data = true ∨
    (a.date = b.date ∧ charListLtb b.start_time.data a.start_time.data = false)

instance : DecidableRel rowOrd := fun a b => by unfold rowOrd; infer_instance

/-- The ordering of `ORDER BY date DESC, start_time ASC` stated with the
standard lexicographic string order, for the specification side of the
comparison. -/
def dateDescThenStartAsc (a b : ShiftRecord) : Prop :=
  b.date < a.date ∨ (a.date = b.date ∧ a.start_time ≤ b.start_time)

/-- Embeds the `POST /search` query (src/app.py lines 175-185): filter the
stored rows with the dynamic `WHERE` clause, then sort by date descending and
start time ascending.  SQLite's sort is modelled by insertion sort with the
`rowOrd` comparison. -/
def searchQuery (empF dateF : String) (rows : List ShiftRecord) : List ShiftRecord :=
  List.insertionSort rowOrd (rows.filter (rowMatches empF dateF))

/-- Embeds `form.get(key, "")` on the parsed form dictionary (the dictionary
maps each key to the value of its first kept occurrence). -/
def formGet (form : List (String × String)) (k : String) : String :=
  match form.find? (fun p => p.1 == k) with
  | some p => p.2
  | none => ""

/-- Embeds the `POST /` handler body (src/app.py lines 138-161): read the form
fields with empty-string defaults, strip the employee name and the comment,
compute the total hours, and insert one row.  The Boolean is `true` when the
insert happened; when `compute_total_hours` raises, the request aborts before
any insert and the stored rows are returned unchanged. -/
def postIndex (form : List (String × String)) (rows : List ShiftRecord)
    (nextId : Nat) : List ShiftRecord × Bool :=
  match compute_total_hours (formGet form "start_time") (formGet form "end_time") with
  | none => (rows, false)
  | some th =>
    (rows ++ [⟨nextId, pyStrip (formGet form "employee_name"), formGet form "date",
      formGet form "start_time", formGet form "end_time", formGet form "rotation",
      th, pyStrip (formGet form "comment")⟩], true)

/-- Embeds the `POST /search` handler (src/app.py lines 168-185): both filters
are read with empty default and stripped, then the query runs. -/
def postSearch (form : List (String × String)) (rows : List ShiftRecord) :
    List ShiftRecord :=
  searchQuery (pyStrip (formGet form "employee_name"))
    (pyStrip (formGet form "date")) rows

/-- Embeds Python `str.replace(old, new)` on character lists: replace every
non-overlapping occurrence, scanning left to right.  (The program only calls
it with non-empty `old`; the `0 < old.length` guard keeps the recursion
well-founded for the degenerate empty pattern.) -/
def replaceAll : List Char → List Char → List Char → List Char
  | [], _, _ => []
  | c :: s2, old, new =>
    if 0 < old.length ∧ old.isPrefixOf (c :: s2) then
      new ++ replaceAll ((c :: s2).drop old.length) old new
    else
      c :: replaceAll s2 old new
termination_by s _ _ => s.length
decreasing_by
  · rename_i h
    simp only [List.length_drop, List.length_cons]
    omega
  · simp only [List.length_cons]
    omega

/-- The fixed placeholder replaced with the results table
(src/app.py lines 115-117). -/
def resultsPlaceholder : String := "\x7b\x7b results_table \x7d\x7d"

/-- Decimal rendering of a stored `total_hours` value: models Python's
`str()` of a float that is an exact multiple of 1/100 (the only values the
program stores), e.g. `8 ↦ "8.0"`, `8.5 ↦ "8.5"`, `8.53 ↦ "8.53"`. -/
def pyFloatRepr (q : ℚ) : String :=
  let cents : ℤ := (q * 100).floor
  let whole : ℤ := cents / 100
  let frac : ℤ := cents % 100
  if frac = 0 then toString whole ++ ".0"
  else if frac % 10 = 0 then toString whole ++ "." ++ toString (frac / 10)
  else if frac < 10 then toString whole ++ ".0" ++ toString frac
  else toString whole ++ "." ++ toString frac

/-- One generated table row (src/app.py lines 104-114): seven cells in fixed
order. -/
def rowHtml (r : ShiftRecord) : String :=
  "<tr>" ++ "<td>" ++ r.employee_name ++ "</td>" ++ "<td>" ++ r.date ++ "</td>" ++
    "<td>" ++ r.start_time ++ "</td>" ++ "<td>" ++ r.end_time ++ "</td>" ++
    "<td>" ++ r.rotation ++ "</td>" ++ "<td>" ++ pyFloatRepr r.total_hours ++ "</td>" ++
    "<td>" ++ r.comment ++ "</td>" ++ "</tr>"

/-- The row substituted when no record matches (src/app.py line 117). -/
def noResultsRow : String :=
  "<tr><td colspan=\x27" ++ "7" ++ "\x27>Aucun enregistrement trouvé.</td></tr>"

/-- The text substituted for the results placeholder (src/app.py lines
100-117): the concatenated rows when the list is non-empty, the designated
"no records found" row otherwise. -/
def resultsTableHtml (results : List ShiftRecord) : String :=
  if results.isEmpty then noResultsRow
  else String.join (results.map rowHtml)

/-- The scalar-substitution loop of `render_template` (src/app.py lines
94-97): each non-list context entry `key ↦ value` replaces every occurrence of
the placeholder built from `key`. -/
def scalarPass (content : String) (scalars : List (String × String)) : String :=
  scalars.foldl
    (fun c kv => ⟨replaceAll c.data ("\x7b\x7b " ++ kv.1 ++ " \x7d\x7d").data kv.2.data⟩)
    content

/-- Embeds `render_template` (src/app.py lines 79-118) applied to a template
text with a context of scalar entries plus a `results` list: the scalar pass
runs first, then the results-table substitution. -/
def render_template (content : String) (scalars : List (String × String))
    (results : List ShiftRecord) : String :=
  ⟨replaceAll (scalarPass content scalars).data resultsPlaceholder.data
    (resultsTableHtml results).data⟩

/-- Value of a hexadecimal digit, for percent-decoding. -/
def hexVal (c : Char) : Option Nat :=
  if 48 ≤ c.toNat ∧ c.toNat ≤ 57 then some (c.toNat - 48)
  else if 65 ≤ c.toNat ∧ c.toNat ≤ 70 then some (c.toNat - 55)
  else if 97 ≤ c.toNat ∧ c.toNat ≤ 102 then some (c.toNat - 87)
  else none

/-- Embeds `urllib.parse.unquote_plus` as used by `parse_qs`: `+` becomes a
space and `%hh` becomes the character with that code (single-byte model of the
UTF-8 byte decoding; invalid escapes are kept verbatim, as in Python). -/
def unquotePlus : List Char → List Char
  | [] => []
  | c :: rest =>
    if c = '+' then ' ' :: unquotePlus rest
    else if c = '%' then
      match _hrest : rest with
      | h1 :: h2 :: rest2 =>
        match hexVal h1, hexVal h2 with
        | some a, some b => Char.ofNat (16 * a + b) :: unquotePlus rest2
        | _, _ => c :: unquotePlus rest
      | _ => c :: unquotePlus rest
    else c :: unquotePlus rest
termination_by l => l.length
decreasing_by all_goals (simp_all only [List.length_cons]; omega)

/-- Embeds Python `s.split("=", 1)` restricted to what `parse_qsl` needs:
`none` when the segment holds no `=`, otherwise the parts before and after the
first `=`. -/
def splitFirstEq : List Char → Option (List Char × List Char)
  | [] => none
  | c :: rest =>
    if c = '=' then some ([], rest)
    else
      match splitFirstEq rest with
      | none => none
      | some (k, v) => some (c :: k, v)

/-- Embeds the treatment of one `&`-separated segment inside
`urllib.parse.parse_qs` with default options (`keep_blank_values=False`,
`strict_parsing=False`): segments without `=` and segments whose raw value is
empty are dropped; otherwise name and value are decoded. -/
def segPair (part : String) : Option (String × String) :=
  match splitFirstEq part.data with
  | none => none
  | some (k, v) => if v = [] then none else some (⟨unquotePlus k⟩, ⟨unquotePlus v⟩)

/-- The kept (name, value) pairs of a segment list, in order. -/
def parseQSL (parts : List String) : List (String × String) :=
  parts.filterMap segPair

/-- Embeds Python `s.split(sep)` for a one-character separator: the empty
string yields `[""]`, and every separator occurrence starts a new piece. -/
def splitOnChar (sep : Char) : List Char → List (List Char)
  | [] => [[]]
  | c :: rest =>
    if c = sep then [] :: splitOnChar sep rest
    else
      match splitOnChar sep rest with
      | [] => [[c]]
      | h :: t => (c :: h) :: t

/-- Embeds `parse_post_data` (src/app.py lines 121-128): split the body on
`&`, keep the decoded pairs, and build the dictionary `{k: v[0]}`.  The
dictionary is represented by the pair list itself; `formGet` reads the first
occurrence of a key, exactly the value `v[0]` of `parse_qs`. -/
def parse_post_data (body : String) : List (String × String) :=
  parseQSL ((splitOnChar '&' body.data).map (fun l => ⟨l⟩))

/-- A concrete stored row used to evaluate the handlers on explicit inputs. -/
def aliceRecord : ShiftRecord :=
  ⟨1, "Alice", "2024-05-01", "09:00", "17:00", "Jour", 8, ""⟩

/-- A second concrete stored row with a different date and start time. -/
def bobRecord : ShiftRecord :=
  ⟨2, "Bob", "2024-05-02", "08:00", "16:00", "Nuit", 8, "ras"⟩

/-! ### Basic facts about time parsing and rounding -/

theorem digitVal_le_of_isDig {c : Char} (h : isDig c = true) : digitVal c ≤ 9 := by
  simp only [isDig, Bool.and_eq_true, decide_eq_true_eq] at h
  simp only [digitVal]
  omega

theorem parseTimeHM_bounds {s : String} {h m : Nat}
    (hp : parseTimeHM s = some (h, m)) : h ≤ 23 ∧ m ≤ 59 := by
  unfold parseTimeHM at hp
  split at hp <;>
    [skip; skip; skip; skip; exact absurd hp (by simp)] <;>
    (split_ifs at hp with hc
     <;> simp only [Option.some.injEq, Prod.mk.injEq] at hp
     <;> obtain ⟨rfl, rfl⟩ := hp) <;>
    [exact ⟨hc.2.2.2.2.1, hc.2.2.2.2.2⟩;
     exact ⟨hc.2.2.2, Nat.le_trans (digitVal_le_of_isDig hc.2.2.1) (by omega)⟩;
     exact ⟨Nat.le_trans (digitVal_le_of_isDig hc.1) (by omega), hc.2.2.2⟩;
     exact ⟨Nat.le_trans (digitVal_le_of_isDig hc.1) (by omega),
       Nat.le_trans (digitVal_le_of_isDig hc.2) (by omega)⟩]

theorem round2_nonneg {q : ℚ} (h : 0 ≤ q) : 0 ≤ round2 q := by
  unfold round2
  have h1 : (0 : ℤ) ≤ (q * 100 + 1/2).floor := by
    rw [Rat.le_floor]
    push_cast
    nlinarith
  positivity

/-- C9: calling the schema-initialization operation any number of times leaves
existing rows unaltered and does not duplicate them: it creates the table only
if absent and is a no-op when the table already exists. -/
theorem C9_init_db_idempotent (s : Option (List ShiftRecord)) :
    init_db (init_db s) = init_db s ∧ ∀ rows, init_db (some rows) = some rows := by
  refine ⟨?_, fun rows => rfl⟩
  cases s <;> rfl

/-- C3: a `POST /` request whose start or end time does not parse in the
`%H:%M` format makes the duration computation raise, which aborts the request
before the insert: the handler reports failure and the stored rows are
unchanged. -/
theorem C3_malformed_time_aborts (form : List (String × String))
    (rows : List ShiftRecord) (nextId : Nat)
    (h : parseTimeHM (formGet form "start_time") = none ∨
      parseTimeHM (formGet form "end_time") = none) :
    postIndex form rows nextId = (rows, false) := by
  rcases h with h | h
  · simp [postIndex, compute_total_hours, h]
  · cases h1 : parseTimeHM (formGet form "start_time") <;>
      simp [postIndex, compute_total_hours, h, h1]

theorem C3_witness :
    postIndex [("start_time", "xx"), ("end_time", "17:00")] [] 1 = ([], false) :=
  C3_malformed_time_aborts _ _ _ (Or.inl rfl)

/-- C1: for parseable `%H:%M` inputs, `compute_total_hours` returns the
end-minus-start difference in seconds divided by 3600 rounded to two decimals
when the end is strictly after the start, and adds exactly one day to the end
before differencing when the end is less than or equal to the start; in
particular 09:00-17:00 gives 8.0, 22:00-06:00 gives 8.0 and 09:00-09:00 gives
24.0. -/
theorem C1_duration_spec (s e : String) (sh sm eh em : Nat)
    (hs : parseTimeHM s = some (sh, sm)) (he : parseTimeHM e = some (eh, em)) :
    ((((sh : ℤ) * 60 + sm) * 60 < ((eh : ℤ) * 60 + em) * 60 →
        compute_total_hours s e =
          some (round2 (((((eh : ℤ) * 60 + em) * 60 - ((sh : ℤ) * 60 + sm) * 60 : ℤ) : ℚ) / 3600))) ∧
      (((eh : ℤ) * 60 + em) * 60 ≤ ((sh : ℤ) * 60 + sm) * 60 →
        compute_total_hours s e =
          some (round2 (((((eh : ℤ) * 60 + em) * 60 + 86400 - ((sh : ℤ) * 60 + sm) * 60 : ℤ) : ℚ) / 3600)))) ∧
    compute_total_hours "09:00" "17:00" = some 8 ∧
    compute_total_hours "22:00" "06:00" = some 8 ∧
    compute_total_hours "09:00" "09:00" = some 24 := by
  have h0900 : parseTimeHM "09:00" = some (9, 0) := rfl
  have h1700 : parseTimeHM "17:00" = some (17, 0) := rfl
  have h2200 : parseTimeHM "22:00" = some (22, 0) := rfl
  have h0600 : parseTimeHM "06:00" = some (6, 0) := rfl
  refine ⟨⟨?_, ?_⟩, ?_, ?_, ?_⟩
  · intro hlt
    have hcond : ¬ ((eh : ℤ) * 60 + em ≤ (sh : ℤ) * 60 + sm) := by omega
    simp only [compute_total_hours, hs, he, if_neg hcond]
    have hAB : ((eh : ℤ) * 60 + em - ((sh : ℤ) * 60 + sm)) * 60
        = ((eh : ℤ) * 60 + em) * 60 - ((sh : ℤ) * 60 + sm) * 60 := by ring
    rw [hAB]
  · intro hle
    have hcond : ((eh : ℤ) * 60 + em ≤ (sh : ℤ) * 60 + sm) := by omega
    simp only [compute_total_hours, hs, he, if_pos hcond]
    have hAB : ((eh : ℤ) * 60 + em + 1440 - ((sh : ℤ) * 60 + sm)) * 60
        = ((eh : ℤ) * 60 + em) * 60 + 86400 - ((sh : ℤ) * 60 + sm) * 60 := by ring
    rw [hAB]
  · simp only [compute_total_hours, h0900, h1700]
    norm_num [round2, Rat.floor]
  · simp only [compute_total_hours, h2200, h0600]
    norm_num [round2, Rat.floor]
  · simp only [compute_total_hours, h0900]
    norm_num [round2, Rat.floor]

theorem C1_witness :
    compute_total_hours "09:00" "17:00" = some 8 :=
  (C1_duration_spec "09:00" "17:00" 9 0 17 0 rfl rfl).2.1

/-! ### The `LIKE` matcher -/

theorem likeMatch_cons_pct (ps : List Char) (c : Char) (s : List Char) :
    likeMatch ('%' :: ps) (c :: s) = (likeMatch ps (c :: s) || likeMatch ('%' :: ps) s) := by
  simp [likeMatch]

theorem likeMatch_cons_lit {p : Char} (hp1 : p ≠ '%') (hp2 : p ≠ '_') (ps : List Char)
    (c : Char) (s : List Char) :
    likeMatch (p :: ps) (c :: s) = (lowerAscii p == lowerAscii c && likeMatch ps s) := by
  simp [likeMatch, hp1, hp2]

theorem likeMatch_cons_usc (ps : List Char) (c : Char) (s : List Char) :
    likeMatch ('_' :: ps) (c :: s) = likeMatch ps s := by
  simp [likeMatch]

theorem likeMatch_pct_nil (s : List Char) : likeMatch ['%'] s = true := by
  induction s with
  | nil => simp [likeMatch]
  | cons c s2 ih => simp [likeMatch_cons_pct, ih]

theorem likeMatch_pct_of {ps s : List Char} (h : likeMatch ps s = true) :
    likeMatch ('%' :: ps) s = true := by
  cases s with
  | nil => simp [likeMatch, h]
  | cons c s2 => simp [likeMatch_cons_pct, h]

theorem likeMatch_pct_iff (ps s : List Char) :
    likeMatch ('%' :: ps) s = true ↔ ∃ t, t <:+ s ∧ likeMatch ps t = true := by
  induction s with
  | nil => simp [likeMatch]
  | cons c s2 ih =>
    rw [likeMatch_cons_pct]
    simp only [Bool.or_eq_true, ih]
    constructor
    · rintro (h | ⟨t, ht, hm⟩)
      · exact ⟨c :: s2, List.suffix_rfl, h⟩
      · exact ⟨t, ht.trans (List.suffix_cons c s2), hm⟩
    · rintro ⟨t, ht, hm⟩
      rcases List.suffix_cons_iff.mp ht with rfl | ht2
      · exact Or.inl hm
      · exact Or.inr ⟨t, ht2, hm⟩

theorem likeMatch_litPct_iff (f : List Char) (hf : ∀ c ∈ f, c ≠ '%' ∧ c ≠ '_') :
    ∀ s : List Char,
      (likeMatch (f ++ ['%']) s = true ↔ f.map lowerAscii <+: s.map lowerAscii) := by
  induction f with
  | nil => intro s; simp [likeMatch_pct_nil]
  | cons c f2 ih =>
    intro s
    have hc := hf c (by simp)
    cases s with
    | nil =>
      rw [List.cons_append]
      simp [likeMatch, hc.1]
    | cons d s2 =>
      rw [List.cons_append, likeMatch_cons_lit hc.1 hc.2]
      simp only [List.map_cons, List.cons_prefix_cons, Bool.and_eq_true, beq_iff_eq]
      rw [ih (fun x hx => hf x (by simp [hx])) s2]

theorem likeMatch_self_append (f post : List Char) :
    likeMatch (f ++ ['%']) (f ++ post) = true := by
  induction f with
  | nil => exact likeMatch_pct_nil post
  | cons c f2 ih =>
    by_cases hc : c = '%'
    · subst hc
      rw [List.cons_append, List.cons_append, likeMatch_cons_pct]
      simp [likeMatch_pct_of ih]
    · by_cases hu : c = '_'
      · subst hu
        rw [List.cons_append, List.cons_append, likeMatch_cons_usc]
        exact ih
      · rw [List.cons_append, List.cons_append, likeMatch_cons_lit hc hu]
        simp [ih]

theorem likeContains_of_infix {f name : String} (h : f.data <:+: name.data) :
    likeContains f name = true := by
  obtain ⟨pre, post, hsplit⟩ := h
  unfold likeContains
  rw [likeMatch_pct_iff]
  refine ⟨f.data ++ post, ?_, likeMatch_self_append f.data post⟩
  rw [← hsplit, List.append_assoc]
  exact List.suffix_append pre (f.data ++ post)

theorem likeContains_iff {f name : String} (hf : ∀ c ∈ f.data, c ≠ '%' ∧ c ≠ '_') :
    (likeContains f name = true ↔
      f.data.map lowerAscii <:+: name.data.map lowerAscii) := by
  unfold likeContains
  rw [likeMatch_pct_iff]
  constructor
  · rintro ⟨t, ht, hm⟩
    rw [likeMatch_litPct_iff f.data hf t] at hm
    exact List.infix_iff_prefix_suffix.mpr ⟨t.map lowerAscii, hm, List.IsSuffix.map lowerAscii ht⟩
  · intro hinf
    obtain ⟨t2, hpre, hsuf⟩ := List.infix_iff_prefix_suffix.mp hinf
    have hk := List.suffix_iff_eq_drop.mp hsuf
    refine ⟨name.data.drop ((name.data.map lowerAscii).length - t2.length),
      List.drop_suffix _ _, ?_⟩
    rw [likeMatch_litPct_iff f.data hf, List.map_drop, ← hk]
    exact hpre

/-! ### C2: the employee-name filter -/

/-- C2 counterexample: with the stored record for "Alice" and the filter
"alice", the record is returned by `POST /search` although "alice" is not a
case-sensitive substring of "Alice" — the claimed case-sensitive containment
is refuted because SQLite's `LIKE` compares ASCII letters case-insensitively. -/
theorem C2_counterexample :
    aliceRecord ∈ postSearch [("employee_name", "alice")] [aliceRecord] ∧
      ¬ ("alice".data <:+: "Alice".data) := by
  constructor
  · have h0 : postSearch [("employee_name", "alice")] [aliceRecord]
        = searchQuery "alice" "" [aliceRecord] := rfl
    have hm : rowMatches "alice" "" aliceRecord = true := by
      simp [rowMatches, likeContains, aliceRecord, likeMatch, lowerAscii]
    have h1 : searchQuery "alice" "" [aliceRecord] = [aliceRecord] := by
      simp [searchQuery, List.filter, hm, List.insertionSort]
    rw [h0, h1]
    exact List.mem_singleton.mpr rfl
  · decide

/-- C2 amended: a stored record is in the `POST /search` result set, for a
wildcard-free employee-name filter, exactly when the filter is an
ASCII-case-insensitive substring of the record's employee name (SQLite `LIKE`
semantics; `%` and `_` in the filter would act as wildcards), the date filter
(when non-empty) equals the record's date exactly, and with both filters empty
every stored record is returned. -/
theorem C2_like_filter_characterization (empF dateF : String) (rows : List ShiftRecord)
    (r : ShiftRecord) (hw : ∀ c ∈ empF.data, c ≠ '%' ∧ c ≠ '_') :
    (r ∈ searchQuery empF dateF rows ↔
      r ∈ rows ∧
        (empF = "" ∨ empF.data.map lowerAscii <:+: r.employee_name.data.map lowerAscii) ∧
        (dateF = "" ∨ r.date = dateF)) := by
  rw [searchQuery, List.mem_insertionSort, List.mem_filter]
  simp only [rowMatches, Bool.and_eq_true, Bool.or_eq_true, beq_iff_eq,
    likeContains_iff hw]

theorem C2_witness :
    (aliceRecord ∈ searchQuery "lice" "2024-05-01" [aliceRecord] ↔
      aliceRecord ∈ [aliceRecord] ∧
        ("lice" = "" ∨ "lice".data.map lowerAscii <:+: aliceRecord.employee_name.data.map lowerAscii) ∧
        ("2024-05-01" = "" ∨ aliceRecord.date = "2024-05-01")) :=
  C2_like_filter_characterization "lice" "2024-05-01" [aliceRecord] aliceRecord (by decide)

/-! ### The ORDER BY comparison -/

theorem charLtb_iff (a b : Char) : charLtb a b = true ↔ a < b := by
  simp [charLtb, Char.lt_iff_val_lt_val, UInt32.lt_def, BitVec.lt_def, Char.toNat, UInt32.toNat]

theorem charListLtb_iff : ∀ l₁ l₂ : List Char, (charListLtb l₁ l₂ = true ↔ l₁ < l₂)
  | [], [] => by
    simp only [charListLtb]
    exact iff_of_false (by simp) (fun h => nomatch h)
  | [], b :: bs => by
    simp only [charListLtb]
    exact iff_of_true trivial List.Lex.nil
  | a :: as, [] => by
    simp only [charListLtb]
    exact iff_of_false (by simp) (fun h => nomatch h)
  | a :: as, b :: bs => by
    simp only [charListLtb, Bool.or_eq_true, Bool.and_eq_true, beq_iff_eq, charLtb_iff,
      charListLtb_iff as bs]
    constructor
    · rintro (hab | ⟨rfl, h⟩)
      · exact List.Lex.rel hab
      · exact List.Lex.cons h
    · intro h
      cases h with
      | cons h => exact Or.inr ⟨rfl, h⟩
      | rel hab => exact Or.inl hab

theorem charListLtb_data_iff (s t : String) : charListLtb s.data t.data = true ↔ s < t := by
  rw [String.lt_iff_toList_lt]
  exact charListLtb_iff s.data t.data

theorem rowOrd_iff (a b : ShiftRecord) : rowOrd a b ↔ dateDescThenStartAsc a b := by
  unfold rowOrd dateDescThenStartAsc
  have h2 : (charListLtb b.start_time.data a.start_time.data = false) ↔
      a.start_time ≤ b.start_time := by
    rw [Bool.eq_false_iff, ne_eq, charListLtb_data_iff]
    exact not_lt
  rw [charListLtb_data_iff, h2]

theorem rowOrd_trans : ∀ a b c : ShiftRecord, rowOrd a b → rowOrd b c → rowOrd a c := by
  intro a b c hab hbc
  rw [rowOrd_iff] at *
  unfold dateDescThenStartAsc at *
  rcases hab with h1 | ⟨e1, l1⟩ <;> rcases hbc with h2 | ⟨e2, l2⟩
  · exact Or.inl (lt_trans h2 h1)
  · exact Or.inl (e2 ▸ h1)
  · exact Or.inl (by rw [e1]; exact h2)
  · exact Or.inr ⟨e1.trans e2, le_trans l1 l2⟩

theorem rowOrd_total : ∀ a b : ShiftRecord, rowOrd a b ∨ rowOrd b a := by
  intro a b
  rw [rowOrd_iff, rowOrd_iff]
  unfold dateDescThenStartAsc
  rcases lt_trichotomy a.date b.date with h | h | h
  · exact Or.inr (Or.inl h)
  · rcases le_total a.start_time b.start_time with hs | hs
    · exact Or.inl (Or.inr ⟨h, hs⟩)
    · exact Or.inr (Or.inr ⟨h.symm, hs⟩)
  · exact Or.inl (Or.inl h)

/-- C6: with both filters empty, `POST /search` returns all stored records,
ordered by date descending and, within equal dates, by start time ascending;
with a non-empty employee-name filter matching no stored record, it returns
the empty sequence (a sequence, never a null-like result). -/
theorem C6_all_records_sorted (rows : List ShiftRecord) :
    (searchQuery "" "" rows).Perm rows ∧
      (searchQuery "" "" rows).Pairwise dateDescThenStartAsc ∧
      (∀ empF dateF, empF ≠ "" →
        (∀ r ∈ rows, likeContains empF r.employee_name = false) →
        searchQuery empF dateF rows = []) := by
  refine ⟨?_, ?_, ?_⟩
  · have hfil : rows.filter (rowMatches "" "") = rows :=
      List.filter_eq_self.mpr (fun r _ => by simp [rowMatches])
    rw [searchQuery, hfil]
    exact List.perm_insertionSort rowOrd rows
  · haveI : IsTotal ShiftRecord rowOrd := ⟨rowOrd_total⟩
    haveI : IsTrans ShiftRecord rowOrd := ⟨fun a b c => rowOrd_trans a b c⟩
    have hs := List.sorted_insertionSort rowOrd (rows.filter (rowMatches "" ""))
    exact List.Pairwise.imp (fun h => (rowOrd_iff _ _).mp h) hs
  · intro empF dateF hne hnomatch
    rw [searchQuery]
    have hfil : rows.filter (rowMatches empF dateF) = [] := by
      rw [List.filter_eq_nil_iff]
      intro r hr
      simp [rowMatches, hnomatch r hr, hne]
    rw [hfil]
    rfl

theorem C6_witness : searchQuery "zz" "" [bobRecord] = [] :=
  (C6_all_records_sorted [bobRecord]).2.2 "zz" "" (by decide)
    (by
      intro r hr
      rw [List.mem_singleton] at hr
      subst hr
      simp [bobRecord, likeContains, likeMatch, lowerAscii])

/-! ### C4: insert/search round trip -/

/-- C4: inserting a record via `POST /` with valid times and then searching
with an employee-name filter that is a substring of the stored (trimmed)
employee name and a date filter equal to the stored date returns the inserted
record with employee name, date, start time, end time, rotation and comment
exactly as stored and with `total_hours` equal to the value computed at
insert time. -/
theorem C4_round_trip (form : List (String × String)) (rows : List ShiftRecord)
    (nextId : Nat) (empF : String) (th : ℚ)
    (hth : compute_total_hours (formGet form "start_time") (formGet form "end_time")
      = some th)
    (hsub : empF.data <:+: (pyStrip (formGet form "employee_name")).data) :
    (let newRec : ShiftRecord :=
      ⟨nextId, pyStrip (formGet form "employee_name"), formGet form "date",
        formGet form "start_time", formGet form "end_time", formGet form "rotation",
        th, pyStrip (formGet form "comment")⟩
     postIndex form rows nextId = (rows ++ [newRec], true) ∧
      newRec ∈ searchQuery empF (formGet form "date") (rows ++ [newRec]) ∧
      newRec.total_hours = th) := by
  intro newRec
  have hpost : postIndex form rows nextId = (rows ++ [newRec], true) := by
    simp only [postIndex, hth]
  refine ⟨hpost, ?_, rfl⟩
  rw [searchQuery, List.mem_insertionSort, List.mem_filter]
  constructor
  · exact List.mem_append_right rows (List.mem_singleton.mpr rfl)
  · have hlike : likeContains empF newRec.employee_name = true :=
      likeContains_of_infix hsub
    simp [rowMatches, hlike]

theorem C4_witness :
    (postIndex
        [("employee_name", " Alice "), ("date", "2024-05-01"), ("start_time", "09:00"),
          ("end_time", "17:00"), ("rotation", "Jour"), ("comment", "ok")] [] 1
      = ([⟨1, "Alice", "2024-05-01", "09:00", "17:00", "Jour", 8, "ok"⟩], true) ∧
      (⟨1, "Alice", "2024-05-01", "09:00", "17:00", "Jour", 8, "ok"⟩ : ShiftRecord) ∈
        searchQuery "lice" "2024-05-01"
          [⟨1, "Alice", "2024-05-01", "09:00", "17:00", "Jour", 8, "ok"⟩] ∧
      (⟨1, "Alice", "2024-05-01", "09:00", "17:00", "Jour", 8, "ok"⟩ : ShiftRecord).total_hours
        = 8) :=
  C4_round_trip
    [("employee_name", " Alice "), ("date", "2024-05-01"), ("start_time", "09:00"),
      ("end_time", "17:00"), ("rotation", "Jour"), ("comment", "ok")] [] 1 "lice" 8
    (by
      show compute_total_hours "09:00" "17:00" = some 8
      have h0900 : parseTimeHM "09:00" = some (9, 0) := rfl
      have h1700 : parseTimeHM "17:00" = some (17, 0) := rfl
      simp only [compute_total_hours, h0900, h1700]
      norm_num [round2, Rat.floor])
    (by decide)

/-! ### C5: missing form fields -/

/-- C5 counterexample: a `POST /` form without a `start_time` field does
default the missing field to the empty string, but the request then aborts in
the duration computation and stores nothing, refuting the claim that every
such request produces a stored record with the corresponding fields empty. -/
theorem C5_counterexample :
    formGet [("employee_name", "Bob"), ("date", "2024-05-01"), ("end_time", "17:00"),
        ("rotation", "Jour")] "start_time" = "" ∧
      postIndex [("employee_name", "Bob"), ("date", "2024-05-01"), ("end_time", "17:00"),
        ("rotation", "Jour")] [] 1 = ([], false) :=
  ⟨rfl, rfl⟩

/-- C5 amended: every form field absent from the submitted form is silently
defaulted to the empty string rather than rejected, and when the absent fields
are among employee name, date, rotation and comment while the submitted times
are valid, the request stores a record whose corresponding text fields are
empty; a missing (or unparseable) time field instead aborts the request with
no insert. -/
theorem C5_missing_fields_default (form : List (String × String))
    (rows : List ShiftRecord) (nextId : Nat) (th : ℚ)
    (habsent : ∀ k ∈ (["employee_name", "date", "rotation", "comment"] : List String),
      form.find? (fun p => p.1 == k) = none)
    (hth : compute_total_hours (formGet form "start_time") (formGet form "end_time")
      = some th) :
    (∀ k, form.find? (fun p => p.1 == k) = none → formGet form k = "") ∧
      postIndex form rows nextId =
        (rows ++ [⟨nextId, "", "", formGet form "start_time", formGet form "end_time",
          "", th, ""⟩], true) := by
  have hget : ∀ k, form.find? (fun p => p.1 == k) = none → formGet form k = "" := by
    intro k hk
    simp [formGet, hk]
  refine ⟨hget, ?_⟩
  have h1 := hget _ (habsent "employee_name" (by simp))
  have h2 := hget _ (habsent "date" (by simp))
  have h3 := hget _ (habsent "rotation" (by simp))
  have h4 := hget _ (habsent "comment" (by simp))
  have hstrip : pyStrip "" = "" := rfl
  simp only [postIndex, hth, h1, h2, h3, h4, hstrip]

theorem C5_witness :
    postIndex [("start_time", "09:00"), ("end_time", "17:00")] [] 1
      = ([⟨1, "", "", "09:00", "17:00", "", 8, ""⟩], true) :=
  (C5_missing_fields_default [("start_time", "09:00"), ("end_time", "17:00")] [] 1 8
    (by decide)
    (by
      show compute_total_hours "09:00" "17:00" = some 8
      have h0900 : parseTimeHM "09:00" = some (9, 0) := rfl
      have h1700 : parseTimeHM "17:00" = some (17, 0) := rfl
      simp only [compute_total_hours, h0900, h1700]
      norm_num [round2, Rat.floor])).2

/-! ### C8: total hours invariant -/

/-- C8: every successfully computed total-hours value is non-negative, so the
records stored by the `POST /` handler always carry non-negative
`total_hours`; the handler only appends (it never rewrites an existing row)
and the search path returns stored rows unchanged, so the field is never
recomputed or edited after insertion. -/
theorem C8_total_hours_invariant :
    (∀ s e th, compute_total_hours s e = some th → 0 ≤ th) ∧
      (∀ form rows nextId, (∀ r ∈ rows, 0 ≤ r.total_hours) →
        ∀ r ∈ (postIndex form rows nextId).1, 0 ≤ r.total_hours) ∧
      (∀ form rows nextId, ∃ added, (postIndex form rows nextId).1 = rows ++ added) ∧
      (∀ empF dateF rows r, r ∈ searchQuery empF dateF rows → r ∈ rows) := by
  have h1 : ∀ s e th, compute_total_hours s e = some th → 0 ≤ th := by
    intro s e th h
    unfold compute_total_hours at h
    cases hs : parseTimeHM s with
    | none => rw [hs] at h; simp at h
    | some p =>
      cases he : parseTimeHM e with
      | none => rw [hs, he] at h; simp at h
      | some q =>
        obtain ⟨sh, sm⟩ := p
        obtain ⟨eh, em⟩ := q
        rw [hs, he] at h
        simp only [Option.some.injEq] at h
        subst h
        apply round2_nonneg
        apply div_nonneg _ (by norm_num)
        obtain ⟨hsh, hsm⟩ := parseTimeHM_bounds hs
        obtain ⟨heh, hem⟩ := parseTimeHM_bounds he
        split_ifs with hc
        · have hz : (0:ℤ) ≤ ((eh : ℤ) * 60 + em + 1440 - ((sh : ℤ) * 60 + sm)) * 60 := by
            have : (sh : ℤ) * 60 + sm ≤ 1439 := by
              have h23 : (sh : ℤ) ≤ 23 := by exact_mod_cast hsh
              have h59 : (sm : ℤ) ≤ 59 := by exact_mod_cast hsm
              omega
            omega
          exact_mod_cast hz
        · have hz : (0:ℤ) ≤ ((eh : ℤ) * 60 + em - ((sh : ℤ) * 60 + sm)) * 60 := by omega
          exact_mod_cast hz
  refine ⟨h1, ?_, ?_, ?_⟩
  · intro form rows nextId hrows r hr
    unfold postIndex at hr
    cases hc : compute_total_hours (formGet form "start_time") (formGet form "end_time") with
    | none => rw [hc] at hr; exact hrows r hr
    | some th =>
      rw [hc] at hr
      simp only [List.mem_append, List.mem_singleton] at hr
      rcases hr with hr | rfl
      · exact hrows r hr
      · exact h1 _ _ _ hc
  · intro form rows nextId
    unfold postIndex
    cases hc : compute_total_hours (formGet form "start_time") (formGet form "end_time") with
    | none => exact ⟨[], by simp⟩
    | some th => exact ⟨_, rfl⟩
  · intro empF dateF rows r hr
    rw [searchQuery, List.mem_insertionSort, List.mem_filter] at hr
    exact hr.1

theorem C8_witness : (0 : ℚ) ≤ 8 :=
  C8_total_hours_invariant.1 "09:00" "17:00" 8
    (by
      have h0900 : parseTimeHM "09:00" = some (9, 0) := rfl
      have h1700 : parseTimeHM "17:00" = some (17, 0) := rfl
      simp only [compute_total_hours, h0900, h1700]
      norm_num [round2, Rat.floor])

/-! ### C7: template rendering -/

theorem replaceAll_nil (old new : List Char) : replaceAll [] old new = [] := by
  simp [replaceAll]

theorem replaceAll_cons_pos {old : List Char} (c : Char) (s2 new : List Char)
    (h1 : 0 < old.length) (h2 : old.isPrefixOf (c :: s2) = true) :
    replaceAll (c :: s2) old new = new ++ replaceAll ((c :: s2).drop old.length) old new := by
  rw [replaceAll]
  rw [if_pos ⟨h1, h2⟩]

theorem replaceAll_cons_neg {old : List Char} (c : Char) (s2 new : List Char)
    (h : ¬ (0 < old.length ∧ old.isPrefixOf (c :: s2) = true)) :
    replaceAll (c :: s2) old new = c :: replaceAll s2 old new := by
  rw [replaceAll]
  rw [if_neg h]

theorem replaceAll_of_no_occurrence (old new : List Char) :
    ∀ s : List Char, (∀ k, old.isPrefixOf (s.drop k) = false) →
      replaceAll s old new = s := by
  intro s
  induction s with
  | nil => intro _; exact replaceAll_nil old new
  | cons c s2 ih =>
    intro h
    have hneg : ¬ (0 < old.length ∧ old.isPrefixOf (c :: s2) = true) := by
      rintro ⟨_, hpref⟩
      have h0 := h 0
      rw [List.drop_zero, hpref] at h0
      exact Bool.noConfusion h0
    rw [replaceAll_cons_neg c s2 new hneg]
    rw [ih (fun k => by simpa using h (k + 1))]

theorem replaceAll_decomp (old new : List Char) (hold : old ≠ []) :
    ∀ pre post : List Char,
      (∀ k < pre.length, old.isPrefixOf ((pre ++ (old ++ post)).drop k) = false) →
      replaceAll (pre ++ (old ++ post)) old new = pre ++ (new ++ replaceAll post old new) := by
  intro pre
  induction pre with
  | nil =>
    intro post _
    rw [List.nil_append, List.nil_append]
    cases old with
    | nil => exact absurd rfl hold
    | cons o os =>
      rw [List.cons_append, replaceAll_cons_pos o (os ++ post) new (by simp)
        (by rw [← List.cons_append]; simp)]
      rw [← List.cons_append, List.drop_left]
  | cons c pre2 ih =>
    intro post h
    have hneg : ¬ (0 < old.length ∧ old.isPrefixOf (c :: (pre2 ++ (old ++ post))) = true) := by
      rintro ⟨_, hpref⟩
      have h0 := h 0 (by simp)
      rw [List.drop_zero, List.cons_append, hpref] at h0
      exact Bool.noConfusion h0
    rw [List.cons_append, replaceAll_cons_neg c (pre2 ++ (old ++ post)) new hneg]
    rw [ih post (fun k hk => by
      have hk2 := h (k + 1) (by simpa using Nat.succ_lt_succ hk)
      rw [List.cons_append] at hk2
      simpa using hk2)]
    rfl

/-- C7: when the template (after the scalar pass) contains the placeholder for
the results table exactly once, rendering substitutes it in place: with N > 0
records the substituted text is the concatenation of exactly N row blocks,
each holding the seven cells employee name, date, start time, end time,
rotation, total hours, comment in that fixed order, and with an empty results
sequence it is the single "no records found" row instead. -/
theorem C7_results_table_substitution (tmpl : String) (scalars : List (String × String))
    (results : List ShiftRecord) (pre post : List Char)
    (hdecomp : (scalarPass tmpl scalars).data = pre ++ (resultsPlaceholder.data ++ post))
    (hpre : ∀ k < pre.length,
      resultsPlaceholder.data.isPrefixOf ((pre ++ (resultsPlaceholder.data ++ post)).drop k)
        = false)
    (hpost : ∀ k ≤ post.length,
      resultsPlaceholder.data.isPrefixOf (post.drop k) = false) :
    (render_template tmpl scalars results).data
        = pre ++ ((resultsTableHtml results).data ++ post) ∧
      (results = [] → resultsTableHtml results = noResultsRow) ∧
      (results ≠ [] →
        resultsTableHtml results = String.join (results.map rowHtml) ∧
        (results.map rowHtml).length = results.length ∧
        ∀ r ∈ results, rowHtml r =
          "<tr>" ++ String.join
            ([r.employee_name, r.date, r.start_time, r.end_time, r.rotation,
              pyFloatRepr r.total_hours, r.comment].map (fun v => "<td>" ++ v ++ "</td>"))
            ++ "</tr>") := by
  refine ⟨?_, ?_, ?_⟩
  · show replaceAll (scalarPass tmpl scalars).data resultsPlaceholder.data
      (resultsTableHtml results).data = _
    rw [hdecomp]
    rw [replaceAll_decomp resultsPlaceholder.data (resultsTableHtml results).data
      (by decide) pre post hpre]
    rw [replaceAll_of_no_occurrence resultsPlaceholder.data (resultsTableHtml results).data
      post ?hocc]
    case hocc =>
      intro k
      by_cases hk : k ≤ post.length
      · exact hpost k hk
      · rw [List.drop_eq_nil_of_le (by omega)]
        rfl
  · intro hres
    subst hres
    rfl
  · intro hres
    refine ⟨?_, List.length_map results rowHtml, ?_⟩
    · rw [resultsTableHtml, if_neg (by simpa using hres)]
    · intro r _
      show rowHtml r = _
      rw [rowHtml]
      simp only [List.map_cons, List.map_nil, String.join]
      simp only [List.foldl_cons, List.foldl_nil]
      apply congrArg String.mk
      simp [String.data_append]

theorem C7_witness :
    (render_template "<table>\x7b\x7b results_table \x7d\x7d</table>" [] [bobRecord]).data
      = "<table>".data ++ ((resultsTableHtml [bobRecord]).data ++ "</table>".data) :=
  (C7_results_table_substitution "<table>\x7b\x7b results_table \x7d\x7d</table>" []
    [bobRecord] "<table>".data "</table>".data rfl (by decide) (by decide)).1

/-! ### C10: form-body parsing -/

theorem unquotePlus_plain : ∀ l : List Char, (∀ c ∈ l, c ≠ '%' ∧ c ≠ '+') →
    unquotePlus l = l := by
  intro l
  induction l with
  | nil => intro _; rw [unquotePlus.eq_def]
  | cons c rest ih =>
    intro h
    have hc := h c (by simp)
    rw [unquotePlus.eq_def]
    dsimp only
    rw [if_neg hc.2, if_neg hc.1]
    rw [ih (fun x hx => h x (by simp [hx]))]

theorem splitFirstEq_append : ∀ k : List Char, (∀ c ∈ k, c ≠ '=') → ∀ v : List Char,
    splitFirstEq (k ++ '=' :: v) = some (k, v) := by
  intro k
  induction k with
  | nil => intro _ v; simp [splitFirstEq]
  | cons c k2 ih =>
    intro h v
    have hc := h c (by simp)
    rw [List.cons_append]
    simp only [splitFirstEq]
    rw [if_neg hc, ih (fun x hx => h x (by simp [hx])) v]

theorem segPair_encode (k v : String)
    (hk : ∀ c ∈ k.data, c ≠ '=' ∧ c ≠ '%' ∧ c ≠ '+')
    (hv : ∀ c ∈ v.data, c ≠ '%' ∧ c ≠ '+') (hvne : v ≠ "") :
    segPair (k ++ "=" ++ v) = some (k, v) := by
  unfold segPair
  have hdata : (k ++ "=" ++ v).data = k.data ++ ('=' :: v.data) := by
    simp [String.data_append]
  rw [hdata, splitFirstEq_append k.data (fun c hc => (hk c hc).1) v.data]
  have hvd : v.data ≠ [] := by
    intro hnil
    apply hvne
    cases v with
    | mk l =>
      simp only [String.data] at hnil
      rw [hnil]
  show (if v.data = [] then none
    else some (String.mk (unquotePlus k.data), String.mk (unquotePlus v.data))) = some (k, v)
  rw [if_neg hvd]
  rw [unquotePlus_plain k.data (fun c hc => ⟨(hk c hc).2.1, (hk c hc).2.2⟩),
    unquotePlus_plain v.data hv]

theorem segPair_blank (k2 : String) (hk : ∀ c ∈ k2.data, c ≠ '=') :
    segPair (k2 ++ "=") = none := by
  unfold segPair
  have hdata : (k2 ++ "=").data = k2.data ++ ('=' :: []) := by
    simp [String.data_append]
  rw [hdata, splitFirstEq_append k2.data hk []]
  rfl

/-- C10: in the parsed form dictionary, a field occurring several times keeps
only its first occurrence's value, and a field submitted with a blank value is
dropped from the dictionary entirely — indistinguishable from a missing field,
so `form.get` falls back to the empty-string default.  Stated over the
`&`-split segments of the body, plus concrete whole-body instances. -/
theorem C10_first_occurrence_and_blank_drop :
    (∀ (pre mid post : List String) (k v v2 : String),
      (∀ c ∈ k.data, c ≠ '=' ∧ c ≠ '%' ∧ c ≠ '+') →
      (∀ c ∈ v.data, c ≠ '%' ∧ c ≠ '+') → v ≠ "" →
      (∀ p ∈ pre, ∀ kv : String × String, segPair p = some kv → kv.1 ≠ k) →
      formGet (parseQSL (pre ++ ((k ++ "=" ++ v) :: (mid ++ ((k ++ "=" ++ v2) :: post))))) k
        = v) ∧
    (∀ (xs ys : List String) (k2 : String), (∀ c ∈ k2.data, c ≠ '=') →
      parseQSL (xs ++ ((k2 ++ "=") :: ys)) = parseQSL (xs ++ ys)) ∧
    formGet (parse_post_data "a=1&a=2") "a" = "1" ∧
    parse_post_data "comment=" = [] ∧
    formGet (parse_post_data "comment=&comment=x") "comment" = "x" ∧
    formGet (parse_post_data "") "comment" = "" := by
  refine ⟨?_, ?_, ?_, ?_, ?_, ?_⟩
  · intro pre mid post k v v2 hk hv hvne hpre
    unfold parseQSL
    rw [List.filterMap_append]
    rw [List.filterMap_cons_some (segPair_encode k v hk hv hvne)]
    unfold formGet
    rw [List.find?_append]
    have hnone : (pre.filterMap segPair).find? (fun p => p.1 == k) = none := by
      rw [List.find?_eq_none]
      intro x hx
      obtain ⟨p, hp, hsome⟩ := List.mem_filterMap.mp hx
      simp only [beq_iff_eq]
      exact hpre p hp x hsome
    rw [hnone, Option.none_or]
    rw [List.find?_cons_of_pos _ (by simp)]
  · intro xs ys k2 hk
    unfold parseQSL
    rw [List.filterMap_append, List.filterMap_append]
    rw [List.filterMap_cons_none (segPair_blank k2 hk)]
  · simp [parse_post_data, splitOnChar, parseQSL, segPair, splitFirstEq, unquotePlus,
      formGet, List.find?]
  · simp [parse_post_data, splitOnChar, parseQSL, segPair, splitFirstEq, unquotePlus]
  · simp [parse_post_data, splitOnChar, parseQSL, segPair, splitFirstEq, unquotePlus,
      formGet, List.find?]
  · simp [parse_post_data, splitOnChar, parseQSL, segPair, splitFirstEq, formGet,
      List.find?]

theorem C10_witness :
    formGet (parseQSL ([] ++ (("a" ++ "=" ++ "1") :: ([] ++ (("a" ++ "=" ++ "2") :: []))))) "a"
      = "1" :=
  C10_first_occurrence_and_blank_drop.1 [] [] [] "a" "1" "2" (by decide) (by decide)
    (by decide) (fun p hp => absurd hp (List.not_mem_nil p))
